import Mathlib

/-!
# wificond: AP interface station bookkeeping and netlink request dispatch

Shallow embedding of `src/ap_interface_impl.cpp` and of the dispatch contract
declared in `src/net/netlink_manager.h`.

Conventions of the embedding:
* a `std::vector<T>` is a `List T`; an iterator into it is the index of the
  element it points at, and `end()` is the length of the list;
* a member function that mutates `this` returns the new object together with
  the ordered list of calls it made on its collaborators (`LOG`, `binder_`,
  `netlink_utils_`, `if_tool_`);
* `uint32_t` values are natural numbers, reduced modulo `2 ^ 32` where the
  arithmetic can overflow.
-/

namespace android.wificond

/-! ## Data model of `ApInterfaceImpl` -/

/-- One `uint8_t`. -/
abbrev Byte := Fin 256

/-- Number of octets of an Ethernet address (`ETH_ALEN` of `linux/if_ether.h`). -/
def ETH_ALEN : Nat := 6

/-- The parameter type `std::array<uint8_t, ETH_ALEN>` of `OnStationEvent`. -/
abbrev MacAddress := { a : List Byte // a.length = ETH_ALEN }

/-- Modelled from the spec: an entry of the derived connected-clients state. The
declaration of the parcelable `NativeWifiClient` is not part of the sources at hand; the
code reads and writes its `macAddress` member, a `std::vector<uint8_t>`. -/
structure NativeWifiClient where
  macAddress : List Byte
deriving DecidableEq, Repr

/-- Modelled from the spec: the station lifecycle change, a new or a departed station.
The declaration of the enumeration `StationEvent` is not part of the sources at hand; the
enumerators are the two that `OnStationEvent` tests. -/
inductive StationEvent where
  | NEW_STATION
  | DEL_STATION
deriving DecidableEq, Repr

/-- Severities used with `LOG(...)` in `ap_interface_impl.cpp`. -/
inductive LogSeverity where
  | DEBUG
  | INFO
  | ERROR
deriving DecidableEq, Repr

/-- The member functions an `ApInterfaceImpl` binds as event handlers. -/
inductive BoundHandler where
  | OnStationEvent
  | OnChannelSwitchEvent
deriving DecidableEq, Repr

/-- A call made by `ApInterfaceImpl` on one of its collaborators, with its arguments. -/
inductive Effect where
  | LOG (severity : LogSeverity)
  | NotifyConnectedClientsChanged (clients : List NativeWifiClient)
  | NotifySoftApChannelSwitched (frequency : Nat) (bandwidth : Nat)
  | NotifyImplDead
  | SetUpState (if_name : String) (new_state : Bool)
  | SubscribeStationEvent (interface_index : Nat) (handler : BoundHandler)
  | SubscribeChannelSwitchEvent (interface_index : Nat) (handler : BoundHandler)
  | UnsubscribeStationEvent (interface_index : Nat)
  | UnsubscribeChannelSwitchEvent (interface_index : Nat)
deriving DecidableEq, Repr

/-- The data members of `ApInterfaceImpl` that the member functions read or write. The
collaborator pointers `netlink_utils_`, `if_tool_` and `binder_` appear as `Effect`s. -/
structure ApInterfaceImpl where
  interface_name_ : String
  interface_index_ : Nat
  connected_clients_ : List NativeWifiClient
deriving DecidableEq, Repr

/-- The call `std::find_if(v.begin(), v.end(), pred)`: the position of the first element
satisfying `pred`, or `v.length` (that is `v.end()`) when there is none. -/
def find_if (v : List NativeWifiClient) (pred : NativeWifiClient → Bool) : Nat :=
  v.findIdx pred

/-- The call `v.erase(iterator)` of `std::vector`, for an iterator pointing at an element. -/
def erase (v : List NativeWifiClient) (iterator : Nat) : List NativeWifiClient :=
  v.eraseIdx iterator

namespace ApInterfaceImpl

/-- The constructor `ApInterfaceImpl::ApInterfaceImpl`. -/
def new (interface_name : String) (interface_index : Nat) : ApInterfaceImpl × List Effect :=
  ({ interface_name_ := interface_name
     interface_index_ := interface_index
     connected_clients_ := [] },
   [Effect.LOG LogSeverity.DEBUG,
    Effect.SubscribeStationEvent interface_index BoundHandler.OnStationEvent,
    Effect.SubscribeChannelSwitchEvent interface_index BoundHandler.OnChannelSwitchEvent])

/-- The destructor `ApInterfaceImpl::~ApInterfaceImpl`: the calls it makes, in order. -/
def destructor (self : ApInterfaceImpl) : List Effect :=
  [Effect.NotifyImplDead,
   Effect.SetUpState self.interface_name_ false,
   Effect.UnsubscribeStationEvent self.interface_index_,
   Effect.UnsubscribeChannelSwitchEvent self.interface_index_]

/-- The member function `ApInterfaceImpl::OnStationEvent`. -/
def OnStationEvent (self : ApInterfaceImpl) (event : StationEvent)
    (mac_address : MacAddress) : ApInterfaceImpl × List Effect :=
  match event with
  | StationEvent.NEW_STATION =>
    let mac_return_address : List Byte := mac_address.val
    let iterator := find_if self.connected_clients_
      (fun p => decide (p.macAddress = mac_return_address))
    if iterator = self.connected_clients_.length then
      let station : NativeWifiClient := { macAddress := mac_return_address }
      let clients := self.connected_clients_ ++ [station]
      ({ self with connected_clients_ := clients },
       [Effect.LOG LogSeverity.INFO, Effect.LOG LogSeverity.INFO,
        Effect.NotifyConnectedClientsChanged clients])
    else
      (self, [Effect.LOG LogSeverity.INFO])
  | StationEvent.DEL_STATION =>
    if self.connected_clients_.length ≤ 0 then
      (self, [Effect.LOG LogSeverity.INFO, Effect.LOG LogSeverity.ERROR])
    else
      let mac_return_address : List Byte := mac_address.val
      let iterator := find_if self.connected_clients_
        (fun p => decide (p.macAddress = mac_return_address))
      if iterator ≠ self.connected_clients_.length then
        let clients := erase self.connected_clients_ iterator
        ({ self with connected_clients_ := clients },
         [Effect.LOG LogSeverity.INFO, Effect.LOG LogSeverity.DEBUG,
          Effect.NotifyConnectedClientsChanged clients])
      else
        (self, [Effect.LOG LogSeverity.INFO])

/-- The member function `ApInterfaceImpl::OnChannelSwitchEvent`. -/
def OnChannelSwitchEvent (self : ApInterfaceImpl) (frequency : Nat) (bandwidth : Nat) :
    ApInterfaceImpl × List Effect :=
  (self, [Effect.LOG LogSeverity.INFO, Effect.NotifySoftApChannelSwitched frequency bandwidth])

/-- The member function `ApInterfaceImpl::GetConnectedClients`. -/
def GetConnectedClients (self : ApInterfaceImpl) : List NativeWifiClient :=
  self.connected_clients_

/-- The object after a finite sequence of `OnStationEvent` calls, oldest first. -/
def handleAll (self : ApInterfaceImpl) (events : List (StationEvent × MacAddress)) :
    ApInterfaceImpl :=
  events.foldl (fun s e => (s.OnStationEvent e.1 e.2).1) self

end ApInterfaceImpl

/-- The argument lists of the `NotifyConnectedClientsChanged` calls among `effects`, in order. -/
def notifications : List Effect → List (List NativeWifiClient)
  | [] => []
  | Effect.NotifyConnectedClientsChanged clients :: rest => clients :: notifications rest
  | _ :: rest => notifications rest

/-- The kind of the last event of `events` that carries `mac_address`, if there is one. -/
def lastEventFor (mac_address : MacAddress) (events : List (StationEvent × MacAddress)) :
    Option StationEvent :=
  ((events.filter (fun e => decide (e.2 = mac_address))).getLast?).map Prod.fst

/-- Whether `mac_address` is the address of some entry of `clients`. -/
def occursIn (mac_address : MacAddress) (clients : List NativeWifiClient) : Prop :=
  ∃ p ∈ clients, p.macAddress = mac_address.val

instance (mac_address : MacAddress) (clients : List NativeWifiClient) :
    Decidable (occursIn mac_address clients) := by
  unfold occursIn; infer_instance

/-! ## Event subscriptions reached through `netlink_utils_` -/

/-- Modelled from the spec: the two event categories a per-interface consumer subscribes
to (station lifecycle change and channel switch); their declarations are not part of the
sources at hand. -/
inductive EventCategory where
  | station
  | channelSwitch
deriving DecidableEq, Repr

/-- Modelled from the spec: an `EventSubscription` is a subscriber key (the interface
index) with a multi-shot callback, registered for one event category. -/
structure EventSubscription where
  category : EventCategory
  key : Nat
  callback : BoundHandler
deriving DecidableEq, Repr

/-- Modelled from the spec: registering a subscription adds it after the ones already
registered (subscribers are invoked in subscription order). The body of
`NetlinkUtils::Subscribe...Event` is not part of the sources at hand. -/
def subscribe (table : List EventSubscription) (category : EventCategory) (key : Nat)
    (callback : BoundHandler) : List EventSubscription :=
  table ++ [{ category := category, key := key, callback := callback }]

/-- Modelled from the spec: a subscription is removed explicitly on unsubscribe, which
names the category and the subscriber key. The body of `NetlinkUtils::Unsubscribe...Event`
is not part of the sources at hand. -/
def unsubscribe (table : List EventSubscription) (category : EventCategory) (key : Nat) :
    List EventSubscription :=
  table.filter (fun sub => !(decide (sub.category = category) && decide (sub.key = key)))

/-- Modelled from the spec: what one call on `netlink_utils_` does to the subscription
table; every other collaborator call leaves the table alone. -/
def performOnSubscriptions (table : List EventSubscription) : Effect → List EventSubscription
  | Effect.SubscribeStationEvent i h => subscribe table EventCategory.station i h
  | Effect.SubscribeChannelSwitchEvent i h => subscribe table EventCategory.channelSwitch i h
  | Effect.UnsubscribeStationEvent i => unsubscribe table EventCategory.station i
  | Effect.UnsubscribeChannelSwitchEvent i => unsubscribe table EventCategory.channelSwitch i
  | _ => table

/-- The subscription table after a list of collaborator calls, performed in order. -/
def performAllOnSubscriptions (table : List EventSubscription) (effects : List Effect) :
    List EventSubscription :=
  effects.foldl performOnSubscriptions table

/-- The calls among `effects` that go to `netlink_utils_`, in order. -/
def netlinkUtilsCalls (effects : List Effect) : List Effect :=
  effects.filter fun e =>
    match e with
    | Effect.SubscribeStationEvent _ _ => true
    | Effect.SubscribeChannelSwitchEvent _ _ => true
    | Effect.UnsubscribeStationEvent _ => true
    | Effect.UnsubscribeChannelSwitchEvent _ => true
    | _ => false

/-! ## `NetlinkManager` -/

/-- Modelled from the spec: `NL80211Packet` is only forward-declared in
`netlink_manager.h`; the fields are those of the spec's decoded message (numeric message
type, flags, sequence number, port id, ordered attributes as tag and payload). -/
structure NL80211Packet where
  nlmsg_type : Nat
  nlmsg_flags : Nat
  nlmsg_seq : Nat
  nlmsg_pid : Nat
  attributes : List (Nat × List Byte)
deriving DecidableEq, Repr

/-- The data members of `NetlinkManager` used by the request dispatch:
`message_handlers_` (a `std::map` from sequence number to handler, kept as an association
list with at most one entry per key) and `sequence_number_`, both declared in
`netlink_manager.h`, and the event subscriptions of the spec. A handler of type `H` stands
for one stored `std::function<void(NL80211Packet)>`. -/
structure NetlinkManager (H : Type) where
  message_handlers_ : List (Nat × H)
  sequence_number_ : Nat
  subscriptions_ : List EventSubscription

/-- One call of a stored callback, with the packet passed to it: either the one-shot
handler of a pending request, or the callback of an event subscription. -/
inductive Invocation (H : Type) where
  | reply (handler : H) (packet : NL80211Packet)
  | event (subscription : EventSubscription) (packet : NL80211Packet)

namespace NetlinkManager

variable {H : Type}

/-- Modelled from the spec: a manager as constructed, with no pending request and no
subscription. The constructor body is not part of the sources at hand and the spec does
not fix the first value of the counter, so it is an argument. -/
def fresh (sequence_number : Nat) : NetlinkManager H :=
  { message_handlers_ := [], sequence_number_ := sequence_number, subscriptions_ := [] }

/-- The sequence numbers that have a handler registered in `message_handlers_`. -/
def pending (self : NetlinkManager H) : List Nat :=
  self.message_handlers_.map Prod.fst

/-- Modelled from the spec: `GetSequenceNumber` (declared in `netlink_manager.h`, body not
part of the sources at hand) advances a monotonically increasing 32-bit counter that
wraps on overflow and returns the new value. -/
def GetSequenceNumber (self : NetlinkManager H) : Nat × NetlinkManager H :=
  let next := (self.sequence_number_ + 1) % 2 ^ 32
  (next, { self with sequence_number_ := next })

/-- Modelled from the spec: `RegisterHandlerAndSendMessage` (declared in
`netlink_manager.h`, body not part of the sources at hand) uses the sequence number
carried by the packet, sends it, and on send success registers the handler in the dispatch
table under that number; it returns the success of the send step only. `sent` is the
outcome of the send step. -/
def RegisterHandlerAndSendMessage (self : NetlinkManager H) (packet : NL80211Packet)
    (handler : H) (sent : Bool) : Bool × NetlinkManager H :=
  if sent then
    (true, { self with
      message_handlers_ :=
        (packet.nlmsg_seq, handler) ::
          self.message_handlers_.filter (fun e => e.1 != packet.nlmsg_seq) })
  else
    (false, self)

/-- Modelled from the spec: the routing of one decoded message. First `take` the sequence
number from the dispatch table: on a hit the one-shot handler is invoked with the message
and removed; otherwise the message identifies an event category and every subscriber
registered for it is invoked, in subscription order; a message matching neither is
dropped. `classify` is the decoding of a message into its event category and subscriber
key, which belongs to the packet codec. -/
def dispatch (classify : NL80211Packet → Option (EventCategory × Nat))
    (self : NetlinkManager H) (packet : NL80211Packet) :
    NetlinkManager H × List (Invocation H) :=
  match self.message_handlers_.lookup packet.nlmsg_seq with
  | some handler =>
    ({ self with
        message_handlers_ := self.message_handlers_.filter (fun e => e.1 != packet.nlmsg_seq) },
     [Invocation.reply handler packet])
  | none =>
    (self,
     (self.subscriptions_.filter
        (fun sub => decide (classify packet = some (sub.category, sub.key)))).map
          (fun sub => Invocation.event sub packet))

/-- Modelled from the spec: `ReceivePacket` (declared in `netlink_manager.h`, body not part
of the sources at hand) routes every message decoded from one readable event, in receipt
order. `packets` are the decoded messages of the event. -/
def ReceivePacket (classify : NL80211Packet → Option (EventCategory × Nat))
    (self : NetlinkManager H) : List NL80211Packet → NetlinkManager H × List (Invocation H)
  | [] => (self, [])
  | packet :: rest =>
    let first := dispatch classify self packet
    let others := ReceivePacket classify first.1 rest
    (others.1, first.2 ++ others.2)

/-- Destroying one stored `std::function` releases its target and does not call it. -/
def destroyHandler (_handler : H) : List (Invocation H) := []

/-- The destructor `~NetlinkManager() = default`: it destroys the data members, and with
`message_handlers_` every stored handler. The result is the list of callback invocations
made while doing so. -/
def destructor (self : NetlinkManager H) : List (Invocation H) :=
  self.message_handlers_.flatMap (fun e => destroyHandler e.2)

end NetlinkManager

/-! ## Sequences of calls on a `NetlinkManager` -/

/-- One call on the manager made by a client or by the reactor. -/
inductive ManagerCall (H : Type) where
  | GetSequenceNumber
  | RegisterHandlerAndSendMessage (packet : NL80211Packet) (handler : H) (sent : Bool)
  | ReceivePacket (packets : List NL80211Packet)

/-- A manager together with the sequence numbers `GetSequenceNumber` has returned so far
(oldest first) and the callback invocations made so far. -/
structure Session (H : Type) where
  manager : NetlinkManager H
  assigned : List Nat
  invoked : List (Invocation H)

namespace Session

variable {H : Type}

/-- The session of a manager as constructed. -/
def start (sequence_number : Nat) : Session H :=
  { manager := NetlinkManager.fresh sequence_number, assigned := [], invoked := [] }

/-- The session after one more call. -/
def step (classify : NL80211Packet → Option (EventCategory × Nat)) (s : Session H) :
    ManagerCall H → Session H
  | ManagerCall.GetSequenceNumber =>
    { s with
      manager := s.manager.GetSequenceNumber.2
      assigned := s.assigned ++ [s.manager.GetSequenceNumber.1] }
  | ManagerCall.RegisterHandlerAndSendMessage packet handler sent =>
    { s with manager := (s.manager.RegisterHandlerAndSendMessage packet handler sent).2 }
  | ManagerCall.ReceivePacket packets =>
    { s with
      manager := (s.manager.ReceivePacket classify packets).1
      invoked := s.invoked ++ (s.manager.ReceivePacket classify packets).2 }

/-- The session after a list of calls, oldest first. -/
def run (classify : NL80211Packet → Option (EventCategory × Nat)) (s : Session H)
    (calls : List (ManagerCall H)) : Session H :=
  calls.foldl (step classify) s

/-- Every request of `calls` is sent under a sequence number that `GetSequenceNumber`
returned earlier in the session. -/
def disciplined (classify : NL80211Packet → Option (EventCategory × Nat)) (s : Session H) :
    List (ManagerCall H) → Prop
  | [] => True
  | ManagerCall.RegisterHandlerAndSendMessage packet handler sent :: rest =>
    packet.nlmsg_seq ∈ s.assigned ∧
      disciplined classify
        (step classify s (ManagerCall.RegisterHandlerAndSendMessage packet handler sent)) rest
  | call :: rest => disciplined classify (step classify s call) rest

end Session

/-- The bookkeeping of a session whose counter started at `first`: the counter has
advanced once per assigned number, the `j`-th assigned number is `first + j` reduced
modulo `2 ^ 32`, and every pending request is registered under an assigned number. -/
def Session.wellNumbered {H : Type} (first : Nat) (s : Session H) : Prop :=
  (s.manager.sequence_number_ + 1) % 2 ^ 32 = (first + s.assigned.length + 1) % 2 ^ 32 ∧
  (∀ k ∈ s.assigned, ∃ j, 1 ≤ j ∧ j ≤ s.assigned.length ∧ k = (first + j) % 2 ^ 32) ∧
  (∀ k ∈ s.manager.pending, k ∈ s.assigned)

/-- How many of `calls` are `GetSequenceNumber` calls. -/
def allocations {H : Type} : List (ManagerCall H) → Nat
  | [] => 0
  | ManagerCall.GetSequenceNumber :: rest => allocations rest + 1
  | _ :: rest => allocations rest

/-- A request packet that carries sequence number `seq`. -/
def requestPacket (seq : Nat) : NL80211Packet :=
  { nlmsg_type := 0, nlmsg_flags := 0, nlmsg_seq := seq, nlmsg_pid := 0, attributes := [] }

/-- A codec under which no message identifies an event category. -/
def noEvents : NL80211Packet → Option (EventCategory × Nat) := fun _ => none

/-- One request sent under the first assigned number and left pending, then one more
`GetSequenceNumber` call. -/
def shortSession : List (ManagerCall String) :=
  [ManagerCall.GetSequenceNumber,
   ManagerCall.RegisterHandlerAndSendMessage (requestPacket 1) "C" true,
   ManagerCall.GetSequenceNumber]

/-- One request sent under the first assigned number and left pending, followed by `n`
further `GetSequenceNumber` calls. -/
def pendingThenAllocate (n : Nat) : List (ManagerCall String) :=
  ManagerCall.GetSequenceNumber ::
    ManagerCall.RegisterHandlerAndSendMessage (requestPacket 1) "C" true ::
      List.replicate n ManagerCall.GetSequenceNumber

/-- One request sent under the first assigned number and left pending, followed by
`2 ^ 32 - 1` further `GetSequenceNumber` calls. -/
def wrapAround : List (ManagerCall String) :=
  pendingThenAllocate (2 ^ 32 - 1)

/-- The address `AA:BB:CC:DD:EE:FF`. -/
def macA : MacAddress := ⟨[0xAA, 0xBB, 0xCC, 0xDD, 0xEE, 0xFF], by decide⟩

/-- The address `02:00:00:00:00:01`. -/
def macB : MacAddress := ⟨[0x02, 0x00, 0x00, 0x00, 0x00, 0x01], by decide⟩

/-- An access point on `wlan0` (index 3) whose only connected client is `macB`. -/
def apWithB : ApInterfaceImpl :=
  { interface_name_ := "wlan0"
    interface_index_ := 3
    connected_clients_ := [{ macAddress := macB.val }] }

/-! ## Lemmas on the vector operations -/

theorem eraseIdx_findIdx_eq_eraseP {α : Type} (p : α → Bool) (l : List α) :
    l.eraseIdx (l.findIdx p) = l.eraseP p := by
  induction l with
  | nil => rfl
  | cons a t ih =>
    rw [List.findIdx_cons]
    cases hp : p a with
    | true => simp [List.eraseP_cons, hp]
    | false => simp [List.eraseP_cons, hp, ih]

theorem client_eq_iff (p : NativeWifiClient) (a : List Byte) :
    p = { macAddress := a } ↔ p.macAddress = a := by
  cases p
  simp

theorem occursIn_iff_mem (m : MacAddress) (clients : List NativeWifiClient) :
    occursIn m clients ↔ ({ macAddress := m.val } : NativeWifiClient) ∈ clients := by
  unfold occursIn
  constructor
  · rintro ⟨p, hp, h⟩
    rwa [← (client_eq_iff p m.val).mpr h]
  · intro h
    exact ⟨_, h, rfl⟩

theorem find_if_eq_length_iff (m : MacAddress) (clients : List NativeWifiClient) :
    find_if clients (fun p => decide (p.macAddress = m.val)) = clients.length ↔
      ¬ occursIn m clients := by
  unfold find_if occursIn
  rw [List.findIdx_eq_length]
  simp

theorem erase_find_if (m : MacAddress) (clients : List NativeWifiClient) :
    erase clients (find_if clients (fun p => decide (p.macAddress = m.val))) =
      clients.erase { macAddress := m.val } := by
  unfold erase find_if
  rw [eraseIdx_findIdx_eq_eraseP, List.erase_eq_eraseP]
  congr 1
  funext p
  cases p
  rw [Bool.eq_iff_iff]
  simp only [decide_eq_true_eq, beq_iff_eq, NativeWifiClient.mk.injEq]
  exact eq_comm

/-! ## What one `OnStationEvent` call does to the list and to the binder -/

theorem OnStationEvent_new (s : ApInterfaceImpl) (m : MacAddress) :
    s.OnStationEvent StationEvent.NEW_STATION m =
      if occursIn m s.connected_clients_ then (s, [Effect.LOG LogSeverity.INFO])
      else ({ s with connected_clients_ := s.connected_clients_ ++ [{ macAddress := m.val }] },
            [Effect.LOG LogSeverity.INFO, Effect.LOG LogSeverity.INFO,
             Effect.NotifyConnectedClientsChanged
               (s.connected_clients_ ++ [{ macAddress := m.val }])]) := by
  unfold ApInterfaceImpl.OnStationEvent
  by_cases h : occursIn m s.connected_clients_
  · have h2 := (find_if_eq_length_iff m s.connected_clients_).not.mpr (not_not.mpr h)
    simp [h, h2]
  · have h2 := (find_if_eq_length_iff m s.connected_clients_).mpr h
    simp [h, h2]

theorem OnStationEvent_del (s : ApInterfaceImpl) (m : MacAddress) :
    s.OnStationEvent StationEvent.DEL_STATION m =
      if occursIn m s.connected_clients_ then
        ({ s with connected_clients_ := s.connected_clients_.erase { macAddress := m.val } },
         [Effect.LOG LogSeverity.INFO, Effect.LOG LogSeverity.DEBUG,
          Effect.NotifyConnectedClientsChanged
            (s.connected_clients_.erase { macAddress := m.val })])
      else if s.connected_clients_ = [] then
        (s, [Effect.LOG LogSeverity.INFO, Effect.LOG LogSeverity.ERROR])
      else (s, [Effect.LOG LogSeverity.INFO]) := by
  unfold ApInterfaceImpl.OnStationEvent
  by_cases h : occursIn m s.connected_clients_
  · have h2 := (find_if_eq_length_iff m s.connected_clients_).not.mpr (not_not.mpr h)
    have h3 : s.connected_clients_ ≠ [] := by
      rintro h0
      obtain ⟨p, hp, -⟩ := h
      simp [h0] at hp
    simp [h, h2, h3, erase_find_if]
  · have h2 := (find_if_eq_length_iff m s.connected_clients_).mpr h
    by_cases h3 : s.connected_clients_ = []
    · simp [h3, occursIn]
    · simp [h, h2, h3]

theorem OnStationEvent_del_absent (s : ApInterfaceImpl) (m : MacAddress)
    (h : ¬ occursIn m s.connected_clients_) :
    (s.OnStationEvent StationEvent.DEL_STATION m).1 = s ∧
      notifications (s.OnStationEvent StationEvent.DEL_STATION m).2 = [] := by
  rw [OnStationEvent_del, if_neg h]
  split <;> simp [notifications]

/-! ## Invariants of the connected-clients list -/

theorem OnStationEvent_nodup (s : ApInterfaceImpl) (e : StationEvent) (m : MacAddress)
    (h : s.connected_clients_.Nodup) : (s.OnStationEvent e m).1.connected_clients_.Nodup := by
  cases e with
  | NEW_STATION =>
    rw [OnStationEvent_new]
    by_cases ho : occursIn m s.connected_clients_
    · simpa [ho] using h
    · have hm := (occursIn_iff_mem m s.connected_clients_).not.mp ho
      simp only [ho, if_false]
      rw [List.nodup_append]
      refine ⟨h, List.nodup_singleton _, ?_⟩
      intro a ha hb
      rw [List.mem_singleton] at hb
      exact hm (hb ▸ ha)
  | DEL_STATION =>
    by_cases ho : occursIn m s.connected_clients_
    · rw [OnStationEvent_del]
      simpa [ho] using h.erase _
    · rw [(OnStationEvent_del_absent s m ho).1]
      exact h

theorem OnStationEvent_mem (s : ApInterfaceImpl) (e : StationEvent) (m m' : MacAddress)
    (h : s.connected_clients_.Nodup) :
    occursIn m' (s.OnStationEvent e m).1.connected_clients_ ↔
      if m = m' then e = StationEvent.NEW_STATION else occursIn m' s.connected_clients_ := by
  have hne : m = m' ↔ ({ macAddress := m'.val } : NativeWifiClient) = { macAddress := m.val } := by
    rw [client_eq_iff]
    exact ⟨fun h => by rw [h], fun h => (Subtype.ext h).symm⟩
  cases e with
  | NEW_STATION =>
    rw [OnStationEvent_new]
    by_cases ho : occursIn m s.connected_clients_
    · by_cases hm : m = m'
      · subst hm
        simp [ho]
      · simp [ho, hm]
    · by_cases hm : m = m'
      · subst hm
        simp [ho, occursIn_iff_mem]
      · have hc := hne.not.mp hm
        simp [ho, hm, occursIn_iff_mem, hc]
  | DEL_STATION =>
    by_cases ho : occursIn m s.connected_clients_
    · rw [OnStationEvent_del]
      simp only [ho, if_true, occursIn_iff_mem, h.mem_erase_iff]
      by_cases hm : m = m'
      · subst hm
        simp
      · have hc := hne.not.mp hm
        simp [hm, hc]
    · rw [(OnStationEvent_del_absent s m ho).1]
      by_cases hm : m = m'
      · subst hm
        simp [ho]
      · simp [hm]

theorem handleAll_concat (s : ApInterfaceImpl) (events : List (StationEvent × MacAddress))
    (e : StationEvent × MacAddress) :
    s.handleAll (events ++ [e]) = ((s.handleAll events).OnStationEvent e.1 e.2).1 := by
  simp [ApInterfaceImpl.handleAll, List.foldl_append]

theorem handleAll_nodup (s : ApInterfaceImpl) (events : List (StationEvent × MacAddress))
    (h : s.connected_clients_.Nodup) : (s.handleAll events).connected_clients_.Nodup := by
  induction events using List.reverseRecOn with
  | nil => simpa [ApInterfaceImpl.handleAll] using h
  | append_singleton l e ih =>
    rw [handleAll_concat]
    exact OnStationEvent_nodup _ _ _ ih

theorem lastEventFor_concat (m : MacAddress) (events : List (StationEvent × MacAddress))
    (e : StationEvent × MacAddress) :
    lastEventFor m (events ++ [e]) =
      if e.2 = m then some e.1 else lastEventFor m events := by
  unfold lastEventFor
  by_cases h : e.2 = m
  · simp [List.filter_append, h]
  · simp [List.filter_append, h]

theorem macAddress_injective : Function.Injective NativeWifiClient.macAddress := by
  intro a b h
  cases a
  cases b
  simpa using h

/-! ## Claims on `ApInterfaceImpl` -/

/-- C1: handling NEW_STATION for the same MAC address twice in a row leaves the same
connected-clients list as handling it once. -/
theorem C1_new_station_idempotent (s : ApInterfaceImpl) (m : MacAddress) :
    ((s.OnStationEvent StationEvent.NEW_STATION m).1.OnStationEvent
        StationEvent.NEW_STATION m).1.connected_clients_ =
      (s.OnStationEvent StationEvent.NEW_STATION m).1.connected_clients_ := by
  have h : occursIn m (s.OnStationEvent StationEvent.NEW_STATION m).1.connected_clients_ := by
    rw [OnStationEvent_new]
    by_cases ho : occursIn m s.connected_clients_
    · simp [ho]
    · simp [ho, occursIn_iff_mem]
  rw [OnStationEvent_new (s.OnStationEvent StationEvent.NEW_STATION m).1]
  simp [h]

/-- C2: DEL_STATION for a MAC address that does not occur in the connected-clients list
(empty or not) leaves the list unchanged and sends no connected-clients-changed
notification. -/
theorem C2_del_unknown_station_ignored (s : ApInterfaceImpl) (m : MacAddress)
    (h : ¬ occursIn m s.connected_clients_) :
    (s.OnStationEvent StationEvent.DEL_STATION m).1.connected_clients_ = s.connected_clients_ ∧
      notifications (s.OnStationEvent StationEvent.DEL_STATION m).2 = [] := by
  have h2 := OnStationEvent_del_absent s m h
  exact ⟨by rw [h2.1], h2.2⟩

/-- The C2 scenario: DEL_STATION for `macA` while only `macB` is connected. -/
theorem C2_del_unknown_station_ignored_witness :
    ¬ occursIn macA apWithB.connected_clients_ ∧
      (apWithB.OnStationEvent StationEvent.DEL_STATION macA).1.connected_clients_ =
        apWithB.connected_clients_ ∧
      notifications (apWithB.OnStationEvent StationEvent.DEL_STATION macA).2 = [] :=
  ⟨by decide, C2_del_unknown_station_ignored apWithB macA (by decide)⟩

/-- C3: in every state reachable from a freshly constructed object by any finite sequence
of OnStationEvent calls, no MAC address occurs more than once in the connected-clients
list. -/
theorem C3_no_station_duplicated (interface_name : String) (interface_index : Nat)
    (events : List (StationEvent × MacAddress)) :
    ((((ApInterfaceImpl.new interface_name interface_index).1.handleAll
        events).connected_clients_).map NativeWifiClient.macAddress).Nodup := by
  apply List.Nodup.map macAddress_injective
  apply handleAll_nodup
  simp [ApInterfaceImpl.new]

/-- C8: after any finite sequence of station events applied to a freshly constructed
object, a MAC address is in the list returned by GetConnectedClients exactly when the
sequence has an event for it and the last such event is NEW_STATION. -/
theorem C8_connected_iff_last_event_new (interface_name : String) (interface_index : Nat)
    (events : List (StationEvent × MacAddress)) (m : MacAddress) :
    occursIn m ((ApInterfaceImpl.new interface_name interface_index).1.handleAll
        events).GetConnectedClients ↔
      lastEventFor m events = some StationEvent.NEW_STATION := by
  unfold ApInterfaceImpl.GetConnectedClients
  induction events using List.reverseRecOn with
  | nil => simp [ApInterfaceImpl.handleAll, ApInterfaceImpl.new, lastEventFor, occursIn]
  | append_singleton l e ih =>
    rw [handleAll_concat, lastEventFor_concat, OnStationEvent_mem _ _ _ _
      (handleAll_nodup _ _ (by simp [ApInterfaceImpl.new]))]
    by_cases hm : e.2 = m
    · simp [hm]
    · simp [hm, ih]

/-- C9: OnStationEvent calls NotifyConnectedClientsChanged exactly when the event changed
the connected-clients list, and then exactly once, passing the list as it is after the
change. -/
theorem C9_notify_iff_changed (s : ApInterfaceImpl) (e : StationEvent) (m : MacAddress) :
    notifications (s.OnStationEvent e m).2 =
      if (s.OnStationEvent e m).1.connected_clients_ = s.connected_clients_ then []
      else [(s.OnStationEvent e m).1.connected_clients_] := by
  cases e with
  | NEW_STATION =>
    rw [OnStationEvent_new]
    by_cases ho : occursIn m s.connected_clients_
    · simp [ho, notifications]
    · simp [ho, notifications]
  | DEL_STATION =>
    by_cases ho : occursIn m s.connected_clients_
    on_goal 2 =>
      have h2 := OnStationEvent_del_absent s m ho
      rw [h2.2, h2.1]
      simp
    · rw [OnStationEvent_del]
      have hm := (occursIn_iff_mem m s.connected_clients_).mp ho
      have hlen := List.length_erase_of_mem hm
      have hpos := List.length_pos_of_mem hm
      have hne : s.connected_clients_.erase { macAddress := m.val } ≠ s.connected_clients_ := by
        intro heq
        rw [heq] at hlen
        omega
      simp [ho, notifications, hne]

/-- C10: for a MAC address that does not occur in the connected-clients list, NEW_STATION
followed by DEL_STATION for it yields the original list again, same entries in the same
order. -/
theorem C10_add_remove_round_trip (s : ApInterfaceImpl) (m : MacAddress)
    (h : ¬ occursIn m s.connected_clients_) :
    ((s.OnStationEvent StationEvent.NEW_STATION m).1.OnStationEvent
        StationEvent.DEL_STATION m).1.connected_clients_ = s.connected_clients_ := by
  have hm := (occursIn_iff_mem m s.connected_clients_).not.mp h
  rw [OnStationEvent_new]
  simp only [h, if_false]
  rw [OnStationEvent_del]
  have ho : occursIn m (s.connected_clients_ ++ [{ macAddress := m.val }]) := by
    simp [occursIn_iff_mem]
  simp only [ho, if_true]
  rw [List.erase_append_right _ hm]
  simp

/-- The C10 scenario: `macA` joins and leaves while `macB` stays connected. -/
theorem C10_add_remove_round_trip_witness :
    ¬ occursIn macA apWithB.connected_clients_ ∧
      ((apWithB.OnStationEvent StationEvent.NEW_STATION macA).1.OnStationEvent
          StationEvent.DEL_STATION macA).1.connected_clients_ = apWithB.connected_clients_ :=
  ⟨by decide, C10_add_remove_round_trip apWithB macA (by decide)⟩

/-! ## Lemmas on the dispatch table -/

theorem dispatch_pending_subset {H : Type}
    (classify : NL80211Packet → Option (EventCategory × Nat)) (m : NetlinkManager H)
    (packet : NL80211Packet) (k : Nat) (hk : k ∈ (m.dispatch classify packet).1.pending) :
    k ∈ m.pending := by
  unfold NetlinkManager.dispatch at hk
  split at hk
  · simp only [NetlinkManager.pending, List.mem_map, List.mem_filter] at hk ⊢
    obtain ⟨e, ⟨he, -⟩, rfl⟩ := hk
    exact ⟨e, he, rfl⟩
  · exact hk

theorem dispatch_sequence_number {H : Type}
    (classify : NL80211Packet → Option (EventCategory × Nat)) (m : NetlinkManager H)
    (packet : NL80211Packet) :
    (m.dispatch classify packet).1.sequence_number_ = m.sequence_number_ := by
  unfold NetlinkManager.dispatch
  split <;> rfl

theorem ReceivePacket_pending_subset {H : Type}
    (classify : NL80211Packet → Option (EventCategory × Nat)) (packets : List NL80211Packet)
    (m : NetlinkManager H) (k : Nat) (hk : k ∈ (m.ReceivePacket classify packets).1.pending) :
    k ∈ m.pending := by
  induction packets generalizing m with
  | nil => simpa [NetlinkManager.ReceivePacket] using hk
  | cons p rest ih =>
    simp only [NetlinkManager.ReceivePacket] at hk
    exact dispatch_pending_subset classify m p k (ih _ hk)

theorem ReceivePacket_sequence_number {H : Type}
    (classify : NL80211Packet → Option (EventCategory × Nat)) (packets : List NL80211Packet)
    (m : NetlinkManager H) :
    (m.ReceivePacket classify packets).1.sequence_number_ = m.sequence_number_ := by
  induction packets generalizing m with
  | nil => simp [NetlinkManager.ReceivePacket]
  | cons p rest ih =>
    simp only [NetlinkManager.ReceivePacket]
    rw [ih, dispatch_sequence_number]

/-! ## Sequence numbers along a session -/

theorem step_wellNumbered {H : Type} (classify : NL80211Packet → Option (EventCategory × Nat))
    (first : Nat) (s : Session H) (call : ManagerCall H) (rest : List (ManagerCall H))
    (hs : s.wellNumbered first) (hd : Session.disciplined classify s (call :: rest)) :
    (Session.step classify s call).wellNumbered first ∧
      Session.disciplined classify (Session.step classify s call) rest ∧
      (Session.step classify s call).assigned.length =
        s.assigned.length + allocations [call] := by
  obtain ⟨hc, ha, hp⟩ := hs
  cases call with
  | GetSequenceNumber =>
    refine ⟨⟨?_, ?_, ?_⟩, hd, by simp [Session.step, allocations]⟩
    · simp only [Session.step, NetlinkManager.GetSequenceNumber, List.length_append,
        List.length_singleton]
      omega
    · intro k hk
      simp only [Session.step, NetlinkManager.GetSequenceNumber, List.mem_append,
        List.mem_singleton, List.length_append, List.length_singleton] at hk ⊢
      rcases hk with hk | hk
      · obtain ⟨j, h1, h2, h3⟩ := ha k hk
        exact ⟨j, h1, by omega, h3⟩
      · exact ⟨s.assigned.length + 1, by omega, le_refl _, by rw [hk]; omega⟩
    · intro k hk
      simp only [Session.step, List.mem_append]
      exact Or.inl (hp k hk)
  | RegisterHandlerAndSendMessage packet handler sent =>
    refine ⟨⟨?_, ?_, ?_⟩, hd.2, by simp [Session.step, allocations]⟩
    · cases sent <;> simpa [Session.step, NetlinkManager.RegisterHandlerAndSendMessage] using hc
    · simpa [Session.step] using ha
    · intro k hk
      cases sent with
      | false =>
        exact hp k (by simpa [Session.step, NetlinkManager.RegisterHandlerAndSendMessage] using hk)
      | true =>
        simp only [Session.step, NetlinkManager.RegisterHandlerAndSendMessage, if_true,
          NetlinkManager.pending, List.map_cons, List.mem_cons] at hk ⊢
        rcases hk with hk | hk
        · rw [hk]
          exact hd.1
        · apply hp
          simp only [NetlinkManager.pending, List.mem_map, List.mem_filter] at hk ⊢
          obtain ⟨e, ⟨he, -⟩, rfl⟩ := hk
          exact ⟨e, he, rfl⟩
  | ReceivePacket packets =>
    refine ⟨⟨?_, ?_, ?_⟩, hd, by simp [Session.step, allocations]⟩
    · simp only [Session.step]
      rw [ReceivePacket_sequence_number]
      exact hc
    · simpa [Session.step] using ha
    · intro k hk
      exact hp k (ReceivePacket_pending_subset classify packets s.manager k hk)

theorem allocations_cons {H : Type} (call : ManagerCall H) (rest : List (ManagerCall H)) :
    allocations (call :: rest) = allocations [call] + allocations rest := by
  cases call <;> simp [allocations]
  omega

theorem run_wellNumbered {H : Type} (classify : NL80211Packet → Option (EventCategory × Nat))
    (first : Nat) (calls : List (ManagerCall H)) (s : Session H)
    (hs : s.wellNumbered first) (hd : Session.disciplined classify s calls) :
    (Session.run classify s calls).wellNumbered first ∧
      (Session.run classify s calls).assigned.length = s.assigned.length + allocations calls := by
  induction calls generalizing s with
  | nil => exact ⟨hs, by simp [Session.run, allocations]⟩
  | cons call rest ih =>
    obtain ⟨h1, h2, h3⟩ := step_wellNumbered classify first s call rest hs hd
    obtain ⟨h4, h5⟩ := ih (Session.step classify s call) h1 h2
    refine ⟨by simpa [Session.run] using h4, ?_⟩
    have h6 : Session.run classify s (call :: rest) =
        Session.run classify (Session.step classify s call) rest := by
      simp [Session.run]
    rw [h6, h5, h3, allocations_cons call rest]
    omega

theorem start_wellNumbered {H : Type} (first : Nat) :
    (Session.start first : Session H).wellNumbered first := by
  refine ⟨by simp [Session.start, NetlinkManager.fresh], ?_, ?_⟩
  · intro k hk
    simp [Session.start] at hk
  · intro k hk
    simp [Session.start, NetlinkManager.fresh, NetlinkManager.pending] at hk

theorem run_replicate_allocations {H : Type}
    (classify : NL80211Packet → Option (EventCategory × Nat)) (n : Nat) (s : Session H) :
    (Session.run classify s (List.replicate n ManagerCall.GetSequenceNumber)).manager.message_handlers_
        = s.manager.message_handlers_ ∧
      ((Session.run classify s
          (List.replicate n ManagerCall.GetSequenceNumber)).manager.sequence_number_ + 1) % 2 ^ 32
        = (s.manager.sequence_number_ + n + 1) % 2 ^ 32 := by
  induction n generalizing s with
  | zero => simp [Session.run]
  | succ n ih =>
    have h : Session.run classify s (List.replicate (n + 1) ManagerCall.GetSequenceNumber) =
        Session.run classify (Session.step classify s ManagerCall.GetSequenceNumber)
          (List.replicate n ManagerCall.GetSequenceNumber) := by
      simp [Session.run, List.replicate_succ]
    rw [h]
    obtain ⟨h1, h2⟩ := ih (Session.step classify s ManagerCall.GetSequenceNumber)
    refine ⟨by rw [h1]; rfl, ?_⟩
    rw [h2]
    simp only [Session.step, NetlinkManager.GetSequenceNumber]
    omega

theorem disciplined_cons_allocation {H : Type}
    (classify : NL80211Packet → Option (EventCategory × Nat)) (s : Session H)
    (rest : List (ManagerCall H)) :
    Session.disciplined classify s (ManagerCall.GetSequenceNumber :: rest) ↔
      Session.disciplined classify (Session.step classify s ManagerCall.GetSequenceNumber)
        rest :=
  Iff.rfl

theorem disciplined_cons_request {H : Type}
    (classify : NL80211Packet → Option (EventCategory × Nat)) (s : Session H)
    (packet : NL80211Packet) (handler : H) (sent : Bool) (rest : List (ManagerCall H)) :
    Session.disciplined classify s
        (ManagerCall.RegisterHandlerAndSendMessage packet handler sent :: rest) ↔
      packet.nlmsg_seq ∈ s.assigned ∧
        Session.disciplined classify
          (Session.step classify s
            (ManagerCall.RegisterHandlerAndSendMessage packet handler sent)) rest :=
  Iff.rfl

theorem disciplined_replicate_allocations {H : Type}
    (classify : NL80211Packet → Option (EventCategory × Nat)) (n : Nat) (s : Session H) :
    Session.disciplined classify s (List.replicate n ManagerCall.GetSequenceNumber) := by
  induction n generalizing s with
  | zero => simp [Session.disciplined]
  | succ n ih =>
    rw [List.replicate_succ]
    simp only [Session.disciplined]
    exact ih _

theorem pendingThenAllocate_run (n : Nat) :
    Session.disciplined noEvents (Session.start 0) (pendingThenAllocate n) ∧
      (Session.run noEvents (Session.start 0) (pendingThenAllocate n)).manager.pending = [1] ∧
      (Session.run noEvents (Session.start 0)
        (pendingThenAllocate n)).manager.GetSequenceNumber.1 = (n + 2) % 2 ^ 32 := by
  have hrun : Session.run noEvents (Session.start 0) (pendingThenAllocate n) =
      Session.run noEvents
        (Session.run noEvents (Session.start 0)
          [ManagerCall.GetSequenceNumber,
           ManagerCall.RegisterHandlerAndSendMessage (requestPacket 1) "C" true])
        (List.replicate n ManagerCall.GetSequenceNumber) := by
    rfl
  obtain ⟨h1, h2⟩ := run_replicate_allocations noEvents n
    (Session.run noEvents (Session.start 0)
      [ManagerCall.GetSequenceNumber,
       ManagerCall.RegisterHandlerAndSendMessage (requestPacket 1) "C" true])
  have h3 : (Session.run noEvents (Session.start 0)
      [ManagerCall.GetSequenceNumber,
       ManagerCall.RegisterHandlerAndSendMessage (requestPacket 1) "C"
         true]).manager.message_handlers_ = [(1, "C")] := by
    simp [Session.run, Session.step, Session.start, NetlinkManager.fresh,
      NetlinkManager.GetSequenceNumber, NetlinkManager.RegisterHandlerAndSendMessage,
      requestPacket]
  have h4 : (Session.run noEvents (Session.start 0)
      [ManagerCall.GetSequenceNumber,
       ManagerCall.RegisterHandlerAndSendMessage (requestPacket 1) "C"
         true]).manager.sequence_number_ = 1 := by
    simp [Session.run, Session.step, Session.start, NetlinkManager.fresh,
      NetlinkManager.GetSequenceNumber, NetlinkManager.RegisterHandlerAndSendMessage]
  refine ⟨?_, ?_, ?_⟩
  · unfold pendingThenAllocate
    rw [disciplined_cons_allocation, disciplined_cons_request]
    refine ⟨?_, disciplined_replicate_allocations _ _ _⟩
    simp [Session.step, Session.start, NetlinkManager.fresh, NetlinkManager.GetSequenceNumber,
      requestPacket]
  · rw [hrun]
    unfold NetlinkManager.pending
    rw [h1, h3]
    rfl
  · rw [hrun]
    simp only [NetlinkManager.GetSequenceNumber]
    rw [h2, h4]
    congr 1
    omega

/-! ## Claims on `NetlinkManager` and on the subscriptions -/

/-- C4, as stated, fails: with one request left pending under the first assigned number,
the call of GetSequenceNumber that follows `2 ^ 32 - 1` further calls returns the number
of that pending request. -/
theorem C4_sequence_number_reused_after_wrap :
    Session.disciplined noEvents (Session.start 0) wrapAround ∧
      (Session.run noEvents (Session.start 0) wrapAround).manager.GetSequenceNumber.1 ∈
        (Session.run noEvents (Session.start 0) wrapAround).manager.pending := by
  obtain ⟨h1, h2, h3⟩ := pendingThenAllocate_run (2 ^ 32 - 1)
  refine ⟨h1, ?_⟩
  unfold wrapAround
  rw [h2, h3]
  decide

/-- C4, amended: along every sequence of calls in which each request is sent under a
number GetSequenceNumber returned earlier and GetSequenceNumber has been called fewer
than `2 ^ 32` times, the number the next GetSequenceNumber call returns is not the key of
a handler still registered in message_handlers_. -/
theorem C4_sequence_number_fresh_before_wrap {H : Type}
    (classify : NL80211Packet → Option (EventCategory × Nat)) (first : Nat)
    (calls : List (ManagerCall H))
    (hd : Session.disciplined classify (Session.start first) calls)
    (hn : allocations calls < 2 ^ 32) :
    (Session.run classify (Session.start first) calls).manager.GetSequenceNumber.1 ∉
      (Session.run classify (Session.start first) calls).manager.pending := by
  obtain ⟨⟨hc, ha, hp⟩, hlen⟩ :=
    run_wellNumbered classify first calls (Session.start first) (start_wellNumbered first) hd
  intro hmem
  obtain ⟨j, h1, h2, h3⟩ := ha _ (hp _ hmem)
  have h0 : (Session.start first : Session H).assigned.length = 0 := by simp [Session.start]
  simp only [NetlinkManager.GetSequenceNumber] at h3
  rw [hc, hlen, h0] at h3
  rw [hlen, h0] at h2
  omega

/-- The amended C4 on a short session: the second assigned number is not the pending one. -/
theorem C4_sequence_number_fresh_before_wrap_witness :
    Session.disciplined noEvents (Session.start 0) shortSession ∧
      allocations shortSession < 2 ^ 32 ∧
      (Session.run noEvents (Session.start 0) shortSession).manager.GetSequenceNumber.1 ∉
        (Session.run noEvents (Session.start 0) shortSession).manager.pending :=
  ⟨by simp [shortSession, Session.disciplined, Session.step, Session.start,
      NetlinkManager.fresh, NetlinkManager.GetSequenceNumber, requestPacket],
   by simp [shortSession, allocations],
   C4_sequence_number_fresh_before_wrap noEvents 0 shortSession
     (by simp [shortSession, Session.disciplined, Session.step, Session.start,
       NetlinkManager.fresh, NetlinkManager.GetSequenceNumber, requestPacket])
     (by simp [shortSession, allocations])⟩

/-- The call of the defaulted destructor itself makes no callback invocation, whatever
`message_handlers_` holds. -/
theorem destructor_makes_no_invocation {H : Type} (m : NetlinkManager H) :
    m.destructor = [] := by
  simp [NetlinkManager.destructor, NetlinkManager.destroyHandler]

/-- C7: constructing an ApInterfaceImpl for interface index i subscribes exactly the
station event and the channel-switch event, both keyed by i; destroying it unsubscribes
both with the same key; so after construction followed by destruction no station or
channel-switch subscription is registered for i. -/
theorem C7_subscription_lifetime (interface_name : String) (i : Nat)
    (table : List EventSubscription) :
    netlinkUtilsCalls (ApInterfaceImpl.new interface_name i).2 =
        [Effect.SubscribeStationEvent i BoundHandler.OnStationEvent,
         Effect.SubscribeChannelSwitchEvent i BoundHandler.OnChannelSwitchEvent] ∧
      netlinkUtilsCalls (ApInterfaceImpl.new interface_name i).1.destructor =
        [Effect.UnsubscribeStationEvent i, Effect.UnsubscribeChannelSwitchEvent i] ∧
      ∀ sub ∈ performAllOnSubscriptions
          (performAllOnSubscriptions table (ApInterfaceImpl.new interface_name i).2)
          (ApInterfaceImpl.new interface_name i).1.destructor,
        ¬ (sub.key = i ∧
          (sub.category = EventCategory.station ∨ sub.category = EventCategory.channelSwitch)) := by
  refine ⟨by simp [netlinkUtilsCalls, ApInterfaceImpl.new],
    by simp [netlinkUtilsCalls, ApInterfaceImpl.new, ApInterfaceImpl.destructor], ?_⟩
  intro sub hsub
  simp only [performAllOnSubscriptions, ApInterfaceImpl.new, ApInterfaceImpl.destructor,
    List.foldl_cons, List.foldl_nil, performOnSubscriptions, unsubscribe, subscribe,
    List.mem_filter] at hsub
  obtain ⟨⟨-, h1⟩, h2⟩ := hsub
  rintro ⟨hk, hc | hc⟩
  · simp [hk, hc] at h1
  · simp [hk, hc] at h2

end android.wificond
